import Mathlib

/-!
Shallow embedding of the ContestTaskManager contract (deposit-and-contest
ledger engine): contests, participants, deposits, interest accrual, voting
and winner resolution, together with proofs about the embedded operations.

Addresses and timestamps are modelled as natural numbers; the zero address
is the value 0.  Solidity 0.8 checked arithmetic on uint256 is modelled by
unbounded Nat arithmetic (the claims under study involve no wrap-around),
and truncating integer division is Nat division.  Each external entry point
becomes a function from the pre-state and the call parameters to either a
typed error (the revert string of the corresponding require) or the
post-state; an operation that reverts leaves the state unchanged, matching
transaction atomicity.  The token collaborator's mint is modelled as a
balance map inside the state.
-/

abbrev Addr := Nat

def INTEREST_RATE : Nat := 5

def SECONDS_PER_YEAR : Nat := 365 * 24 * 60 * 60

structure Participant where
  depositAmount : Nat
  depositTimestamp : Nat
  lastInterestClaimTime : Nat
  votesReceived : Nat
  hasVoted : Bool
  hasFinished : Bool
deriving Repr, DecidableEq

def Participant.init : Participant :=
  { depositAmount := 0, depositTimestamp := 0, lastInterestClaimTime := 0,
    votesReceived := 0, hasVoted := false, hasFinished := false }

structure ContestDetails where
  title : String
  description : String
  goals : String
  totalDeposited : Nat
  totalInterestGenerated : Nat
  participantsCount : Nat
  votingDeadline : Nat
  active : Bool
deriving Repr, DecidableEq

def ContestDetails.init : ContestDetails :=
  { title := "", description := "", goals := "", totalDeposited := 0,
    totalInterestGenerated := 0, participantsCount := 0,
    votingDeadline := 0, active := false }

/-- Typed revert reasons, one per require string in the contract. -/
inductive ContestError where
  | NotOwner
  | InvalidAmount
  | ContestInactive
  | AlreadyFinished
  | NoDeposit
  | VotingClosed
  | NotAParticipant
  | AlreadyVoted
  | NomineeNotParticipant
  | VotingStillOpen
  | ContestStillActive
  | AlreadyInactive
deriving Repr, DecidableEq

structure LedgerState where
  owner : Addr
  contestCounter : Nat
  contests : Nat → ContestDetails
  contestParticipants : Nat → Addr → Participant
  tokenBalance : Addr → Nat

def initState (owner : Addr) : LedgerState :=
  { owner := owner, contestCounter := 0,
    contests := fun _ => ContestDetails.init,
    contestParticipants := fun _ _ => Participant.init,
    tokenBalance := fun _ => 0 }

def LedgerState.setContest (s : LedgerState) (cid : Nat) (cd : ContestDetails) :
    LedgerState :=
  { s with contests := fun c => if c = cid then cd else s.contests c }

def LedgerState.setParticipant (s : LedgerState) (cid : Nat) (a : Addr)
    (p : Participant) : LedgerState :=
  { s with contestParticipants :=
      fun c b => if c = cid ∧ b = a then p else s.contestParticipants c b }

def LedgerState.mint (s : LedgerState) (a : Addr) (amount : Nat) : LedgerState :=
  { s with tokenBalance :=
      fun b => if b = a then s.tokenBalance b + amount else s.tokenBalance b }

/-- createContest: owner-only; increments the counter, installs a fresh active
contest under the new id with deadline now plus the voting duration. -/
def createContest (s : LedgerState) (caller : Addr) (now : Nat)
    (title description goals : String) (votingDuration : Nat) :
    Except ContestError (LedgerState × Nat) :=
  if caller ≠ s.owner then .error .NotOwner
  else
    let contestId := s.contestCounter + 1
    let s1 := { s with contestCounter := contestId }
    let s2 := s1.setContest contestId
      { title := title, description := description, goals := goals,
        totalDeposited := 0, totalInterestGenerated := 0,
        participantsCount := 0, votingDeadline := now + votingDuration,
        active := true }
    .ok (s2, contestId)

/-- The internal interest-settlement routine.  Requires a positive deposit,
computes accrued interest with two truncating divisions, resets the last
claim time unconditionally, and mints only when the accrued amount is
positive. -/
def claimInterestAux (s : LedgerState) (contestId : Nat) (paddr : Addr)
    (now : Nat) : Except ContestError LedgerState :=
  let p := s.contestParticipants contestId paddr
  if p.depositAmount = 0 then .error .NoDeposit
  else
    let elapsedTime := now - p.lastInterestClaimTime
    let annualInterest := p.depositAmount * INTEREST_RATE / 100
    let accruedInterest := annualInterest * elapsedTime / SECONDS_PER_YEAR
    let s1 := s.setParticipant contestId paddr
      { p with lastInterestClaimTime := now }
    if accruedInterest > 0 then
      let s2 := s1.mint paddr accruedInterest
      let cd := s2.contests contestId
      .ok (s2.setContest contestId
        { cd with totalInterestGenerated :=
            cd.totalInterestGenerated + accruedInterest })
    else .ok s1

/-- The tail of deposit, lines 90 to 93 of the contract: add the value to
the participant's deposit, stamp the deposit time, add the value to the
contest total. -/
def applyPrincipal (s : LedgerState) (cid : Nat) (a : Addr) (now value : Nat) :
    LedgerState :=
  let p1 := s.contestParticipants cid a
  let s2 := s.setParticipant cid a
    { p1 with depositAmount := p1.depositAmount + value,
              depositTimestamp := now }
  s2.setContest cid
    { s2.contests cid with
        totalDeposited := (s2.contests cid).totalDeposited + value }

/-- deposit: requires a positive value, an active contest and a participant
that has not finished; a first deposit bumps the participant count and sets
the last claim time, a later one settles interest first; then the value is
added to the deposit and to the contest total. -/
def deposit (s : LedgerState) (caller : Addr) (now : Nat) (contestId : Nat)
    (value : Nat) : Except ContestError LedgerState :=
  if value = 0 then .error .InvalidAmount
  else if ¬ (s.contests contestId).active then .error .ContestInactive
  else
    let p := s.contestParticipants contestId caller
    if p.hasFinished then .error .AlreadyFinished
    else
      let step1 : Except ContestError LedgerState :=
        if p.depositAmount = 0 then
          let cd := s.contests contestId
          let s1 := s.setContest contestId
            { cd with participantsCount := cd.participantsCount + 1 }
          .ok (s1.setParticipant contestId caller
            { p with lastInterestClaimTime := now })
        else claimInterestAux s contestId caller now
      match step1 with
      | .error e => .error e
      | .ok s1 => .ok (applyPrincipal s1 contestId caller now value)

/-- claimInterest: the external entry point simply invokes the internal
settlement routine for the caller. -/
def claimInterest (s : LedgerState) (caller : Addr) (now : Nat)
    (contestId : Nat) : Except ContestError LedgerState :=
  claimInterestAux s contestId caller now

/-- vote: deadline and active checks, then voter and nominee participation
checks, the one-vote-per-participant check, and the mutation.  The nominee
record is re-read after the voter update so a self-vote aliases correctly. -/
def vote (s : LedgerState) (caller : Addr) (now : Nat) (contestId : Nat)
    (nominee : Addr) : Except ContestError LedgerState :=
  if ¬ now ≤ (s.contests contestId).votingDeadline then .error .VotingClosed
  else if ¬ (s.contests contestId).active then .error .ContestInactive
  else
    let voter := s.contestParticipants contestId caller
    let nomineeParticipant := s.contestParticipants contestId nominee
    if voter.depositAmount = 0 then .error .NotAParticipant
    else if voter.hasVoted then .error .AlreadyVoted
    else if nomineeParticipant.depositAmount = 0 then
      .error .NomineeNotParticipant
    else
      let s1 := s.setParticipant contestId caller { voter with hasVoted := true }
      let nom1 := s1.contestParticipants contestId nominee
      let s2 := s1.setParticipant contestId nominee
        { nom1 with votesReceived := nom1.votesReceived + 1 }
      .ok s2

/-- The winner-search loop exactly as written in the source: the index runs
over the participant count, but the record consulted is always the one at
the address held in currentWinner, and the assignment in the hit branch
writes currentWinner back to itself. -/
def getWinnerLoop (lookup : Addr → Nat) :
    Nat → Nat → Addr → Addr
  | 0, _, currentWinner => currentWinner
  | n + 1, maxVotes, currentWinner =>
      let votes := lookup currentWinner
      if votes > maxVotes then
        getWinnerLoop lookup n votes currentWinner
      else
        getWinnerLoop lookup n maxVotes currentWinner

/-- getWinner: requires the deadline to have passed and requires the active
flag to hold (the require guards on the flag being true), then runs the
winner-search loop starting from max 0 and the zero address. -/
def getWinner (s : LedgerState) (now : Nat) (contestId : Nat) :
    Except ContestError Addr :=
  if ¬ now > (s.contests contestId).votingDeadline then .error .VotingStillOpen
  else if ¬ (s.contests contestId).active then .error .ContestStillActive
  else
    .ok (getWinnerLoop
      (fun a => (s.contestParticipants contestId a).votesReceived)
      (s.contests contestId).participantsCount 0 0)

/-- endContest: owner-only; requires the contest active, deactivates it, then
calls getWinner on the updated state; a revert inside getWinner reverts the
whole call, so no state change survives in that case. -/
def endContest (s : LedgerState) (caller : Addr) (now : Nat)
    (contestId : Nat) : Except ContestError (LedgerState × Addr) :=
  if caller ≠ s.owner then .error .NotOwner
  else if ¬ (s.contests contestId).active then .error .AlreadyInactive
  else
    let cd := s.contests contestId
    let s1 := s.setContest contestId { cd with active := false }
    match getWinner s1 now contestId with
    | .error e => .error e
    | .ok winner => .ok (s1, winner)

/-- getAccruedInterest: the read-only projection of the accrual formula. -/
def getAccruedInterest (s : LedgerState) (now : Nat) (contestId : Nat)
    (paddr : Addr) : Nat :=
  let p := s.contestParticipants contestId paddr
  if p.depositAmount = 0 then 0
  else
    let elapsedTime := now - p.lastInterestClaimTime
    let annualInterest := p.depositAmount * INTEREST_RATE / 100
    annualInterest * elapsedTime / SECONDS_PER_YEAR

/-- One external transaction against the ledger. -/
inductive Op where
  | createContest (caller : Addr) (now : Nat)
      (title description goals : String) (votingDuration : Nat)
  | deposit (caller : Addr) (now : Nat) (contestId : Nat) (value : Nat)
  | claimInterest (caller : Addr) (now : Nat) (contestId : Nat)
  | vote (caller : Addr) (now : Nat) (contestId : Nat) (nominee : Addr)
  | endContest (caller : Addr) (now : Nat) (contestId : Nat)

def applyOp (s : LedgerState) : Op → Except ContestError LedgerState
  | .createContest caller now t d g dur =>
      (createContest s caller now t d g dur).map Prod.fst
  | .deposit caller now cid v => deposit s caller now cid v
  | .claimInterest caller now cid => claimInterest s caller now cid
  | .vote caller now cid nominee => vote s caller now cid nominee
  | .endContest caller now cid => (endContest s caller now cid).map Prod.fst

/-- States reachable from the fresh ledger by successful transactions. -/
inductive Reachable (owner : Addr) : LedgerState → Prop
  | init : Reachable owner (initState owner)
  | step {s s' : LedgerState} (op : Op) :
      Reachable owner s → applyOp s op = .ok s' → Reachable owner s'

/-- The accrual formula applied to one participant record: two truncating
divisions, annual interest first, then proration by elapsed seconds. -/
def accruedOf (p : Participant) (now : Nat) : Nat :=
  p.depositAmount * INTEREST_RATE / 100 * (now - p.lastInterestClaimTime) /
    SECONDS_PER_YEAR

/-- The contest total equals the sum of participant deposits, phrased over
any finite set of addresses covering everyone with a nonzero deposit
(addresses outside the support contribute zero to the sum). -/
def SumInv (s : LedgerState) : Prop :=
  ∀ (cid : Nat) (S : Finset Addr),
    (∀ a, (s.contestParticipants cid a).depositAmount ≠ 0 → a ∈ S) →
    (s.contests cid).totalDeposited =
      ∑ a ∈ S, (s.contestParticipants cid a).depositAmount

/-- A contest id whose records are still in their zero-initialised state. -/
def Untouched (s : LedgerState) (cid : Nat) : Prop :=
  s.contests cid = ContestDetails.init ∧
  ∀ a, s.contestParticipants cid a = Participant.init

/-- Ids never allocated by createContest are untouched: id zero, and every
id above the current counter. -/
def FreshInv (s : LedgerState) : Prop :=
  ∀ cid, cid = 0 ∨ s.contestCounter < cid → Untouched s cid

/-- Anyone marked as having voted holds a positive deposit. -/
def VotedInv (s : LedgerState) : Prop :=
  ∀ cid a, (s.contestParticipants cid a).hasVoted = true →
    (s.contestParticipants cid a).depositAmount ≠ 0

def LedgerInv (s : LedgerState) : Prop := FreshInv s ∧ SumInv s ∧ VotedInv s

/-- Extract the post-state of a successful transaction (fallback: the fresh
ledger; only ever used on calls known to succeed). -/
def exOk (x : Except ContestError LedgerState) : LedgerState :=
  match x with
  | .ok s => s
  | .error _ => initState 0

/-! Concrete demonstration trace: owner 7 creates contest 1 at time 0 with a
10-second voting window; addresses 1 and 2 each deposit 100 at time 0;
address 1 votes for address 2 at time 5.  demo4i is demo4 with contest 1
deactivated by hand (the contract itself has no way to reach that state,
since endContest always reverts). -/

def demo0 : LedgerState := initState 7

def demo1 : LedgerState :=
  exOk (applyOp demo0 (.createContest 7 0 "t" "d" "g" 10))

def demo2 : LedgerState := exOk (applyOp demo1 (.deposit 1 0 1 100))

def demo3 : LedgerState := exOk (applyOp demo2 (.deposit 2 0 1 100))

def demo4 : LedgerState := exOk (applyOp demo3 (.vote 1 5 1 2))

def demo4i : LedgerState :=
  demo4.setContest 1 { demo4.contests 1 with active := false }

def demo5 : LedgerState :=
  exOk (applyOp demo4i (.claimInterest 1 SECONDS_PER_YEAR 1))

/-- A single 1000-unit deposit at time 0 by address 1, for the interest
scenario. -/
def demoK : LedgerState := exOk (applyOp demo1 (.deposit 1 0 1 1000))

def demoK1 : LedgerState := exOk (claimInterest demoK 1 SECONDS_PER_YEAR 1)

/-! Projection lemmas for the state updaters. -/

@[simp] theorem setContest_contests (s : LedgerState) (cid : Nat)
    (cd : ContestDetails) (c : Nat) :
    (s.setContest cid cd).contests c = if c = cid then cd else s.contests c := rfl

@[simp] theorem setContest_participants (s : LedgerState) (cid : Nat)
    (cd : ContestDetails) :
    (s.setContest cid cd).contestParticipants = s.contestParticipants := rfl

@[simp] theorem setContest_balance (s : LedgerState) (cid : Nat)
    (cd : ContestDetails) :
    (s.setContest cid cd).tokenBalance = s.tokenBalance := rfl

@[simp] theorem setContest_owner (s : LedgerState) (cid : Nat)
    (cd : ContestDetails) :
    (s.setContest cid cd).owner = s.owner := rfl

@[simp] theorem setContest_counter (s : LedgerState) (cid : Nat)
    (cd : ContestDetails) :
    (s.setContest cid cd).contestCounter = s.contestCounter := rfl

@[simp] theorem setParticipant_participants (s : LedgerState) (cid : Nat)
    (a : Addr) (p : Participant) (c : Nat) (b : Addr) :
    (s.setParticipant cid a p).contestParticipants c b =
      if c = cid ∧ b = a then p else s.contestParticipants c b := rfl

@[simp] theorem setParticipant_contests (s : LedgerState) (cid : Nat)
    (a : Addr) (p : Participant) :
    (s.setParticipant cid a p).contests = s.contests := rfl

@[simp] theorem setParticipant_balance (s : LedgerState) (cid : Nat)
    (a : Addr) (p : Participant) :
    (s.setParticipant cid a p).tokenBalance = s.tokenBalance := rfl

@[simp] theorem setParticipant_owner (s : LedgerState) (cid : Nat)
    (a : Addr) (p : Participant) :
    (s.setParticipant cid a p).owner = s.owner := rfl

@[simp] theorem setParticipant_counter (s : LedgerState) (cid : Nat)
    (a : Addr) (p : Participant) :
    (s.setParticipant cid a p).contestCounter = s.contestCounter := rfl

@[simp] theorem mint_balance (s : LedgerState) (a : Addr) (amount : Nat)
    (b : Addr) :
    (s.mint a amount).tokenBalance b =
      if b = a then s.tokenBalance b + amount else s.tokenBalance b := rfl

@[simp] theorem mint_contests (s : LedgerState) (a : Addr) (amount : Nat) :
    (s.mint a amount).contests = s.contests := rfl

@[simp] theorem mint_participants (s : LedgerState) (a : Addr) (amount : Nat) :
    (s.mint a amount).contestParticipants = s.contestParticipants := rfl

@[simp] theorem mint_owner (s : LedgerState) (a : Addr) (amount : Nat) :
    (s.mint a amount).owner = s.owner := rfl

@[simp] theorem mint_counter (s : LedgerState) (a : Addr) (amount : Nat) :
    (s.mint a amount).contestCounter = s.contestCounter := rfl

theorem setParticipant_self (s : LedgerState) (cid : Nat) (a : Addr) :
    s.setParticipant cid a (s.contestParticipants cid a) = s := by
  cases s with
  | mk owner counter contests parts bal =>
    simp only [LedgerState.setParticipant, LedgerState.mk.injEq, true_and]
    constructor
    · funext c b
      by_cases hc : c = cid ∧ b = a
      · obtain ⟨hc1, hc2⟩ := hc
        subst hc1; subst hc2; simp
      · simp [hc]
    · trivial

/-- Full characterisation of a successful run of the internal settlement
routine. -/
theorem claimInterestAux_char (s : LedgerState) (cid : Nat) (a : Addr)
    (now : Nat) (h : (s.contestParticipants cid a).depositAmount ≠ 0) :
    ∃ s1, claimInterestAux s cid a now = .ok s1 ∧
      (∀ c b, s1.contestParticipants c b =
        if c = cid ∧ b = a then
          { s.contestParticipants cid a with lastInterestClaimTime := now }
        else s.contestParticipants c b) ∧
      (∀ c, c ≠ cid → s1.contests c = s.contests c) ∧
      (s1.contests cid = { s.contests cid with
          totalInterestGenerated := (s.contests cid).totalInterestGenerated +
            accruedOf (s.contestParticipants cid a) now }) ∧
      (∀ b, s1.tokenBalance b =
        if b = a then
          s.tokenBalance b + accruedOf (s.contestParticipants cid a) now
        else s.tokenBalance b) ∧
      s1.owner = s.owner ∧ s1.contestCounter = s.contestCounter := by
  simp only [claimInterestAux, if_neg h]
  by_cases hacc : (s.contestParticipants cid a).depositAmount * INTEREST_RATE /
      100 * (now - (s.contestParticipants cid a).lastInterestClaimTime) /
      SECONDS_PER_YEAR > 0
  · rw [if_pos hacc]
    refine ⟨_, rfl, ?_, ?_, ?_, ?_, rfl, rfl⟩
    · intro c b
      simp
    · intro c hc
      simp [hc]
    · simp [accruedOf]
    · intro b
      by_cases hb : b = a <;> simp [accruedOf, hb]
  · rw [if_neg hacc]
    have hz : accruedOf (s.contestParticipants cid a) now = 0 := by
      simpa [accruedOf] using Nat.eq_zero_of_not_pos hacc
    refine ⟨_, rfl, ?_, ?_, ?_, ?_, rfl, rfl⟩
    · intro c b
      simp
    · intro c hc
      simp [hc]
    · simp [hz]
    · intro b
      simp [hz]

theorem claimInterestAux_err (s : LedgerState) (cid : Nat) (a : Addr)
    (now : Nat) (h : (s.contestParticipants cid a).depositAmount = 0) :
    claimInterestAux s cid a now = .error .NoDeposit := by
  simp [claimInterestAux, h]

/-- Inversion of a successful settlement: the deposit was positive and the
post-state is as characterised. -/
theorem claimInterestAux_ok_inv (s : LedgerState) (cid : Nat) (a : Addr)
    (now : Nat) (s1 : LedgerState)
    (h : claimInterestAux s cid a now = .ok s1) :
    (s.contestParticipants cid a).depositAmount ≠ 0 ∧
    (∀ c b, s1.contestParticipants c b =
      if c = cid ∧ b = a then
        { s.contestParticipants cid a with lastInterestClaimTime := now }
      else s.contestParticipants c b) ∧
    (∀ c, c ≠ cid → s1.contests c = s.contests c) ∧
    (s1.contests cid = { s.contests cid with
        totalInterestGenerated := (s.contests cid).totalInterestGenerated +
          accruedOf (s.contestParticipants cid a) now }) ∧
    (∀ b, s1.tokenBalance b =
      if b = a then
        s.tokenBalance b + accruedOf (s.contestParticipants cid a) now
      else s.tokenBalance b) ∧
    s1.owner = s.owner ∧ s1.contestCounter = s.contestCounter := by
  by_cases hd : (s.contestParticipants cid a).depositAmount = 0
  · rw [claimInterestAux_err s cid a now hd] at h
    exact absurd h (by simp)
  · obtain ⟨s1', heq, hprops⟩ := claimInterestAux_char s cid a now hd
    rw [heq] at h
    cases h
    exact ⟨hd, hprops⟩

/-- Inversion of a successful deposit: all three checks passed, and the
post-state is the principal update applied after the first-deposit branch
or after interest settlement. -/
theorem deposit_ok_inv (s : LedgerState) (caller : Addr) (now cid value : Nat)
    (s' : LedgerState) (h : deposit s caller now cid value = .ok s') :
    value ≠ 0 ∧ (s.contests cid).active = true ∧
    (s.contestParticipants cid caller).hasFinished = false ∧
    ∃ s1, s' = applyPrincipal s1 cid caller now value ∧
      (∀ c b, (s1.contestParticipants c b).depositAmount =
        (s.contestParticipants c b).depositAmount) ∧
      (∀ c b, (s1.contestParticipants c b).hasVoted =
        (s.contestParticipants c b).hasVoted) ∧
      (∀ c b, ¬(c = cid ∧ b = caller) →
        s1.contestParticipants c b = s.contestParticipants c b) ∧
      (∀ c, c ≠ cid → s1.contests c = s.contests c) ∧
      (∀ c, (s1.contests c).totalDeposited = (s.contests c).totalDeposited) ∧
      (∀ c, (s1.contests c).active = (s.contests c).active) ∧
      (∀ c, (s1.contests c).votingDeadline = (s.contests c).votingDeadline) ∧
      s1.contestCounter = s.contestCounter := by
  unfold deposit at h
  by_cases hv : value = 0
  · rw [if_pos hv] at h
    exact absurd h (by simp)
  · rw [if_neg hv] at h
    by_cases ha : (s.contests cid).active
    · rw [if_neg (by simpa using ha)] at h
      by_cases hf : (s.contestParticipants cid caller).hasFinished
      · rw [if_pos hf] at h
        exact absurd h (by simp)
      · rw [if_neg hf] at h
        refine ⟨hv, ha, by simpa using hf, ?_⟩
        by_cases hd : (s.contestParticipants cid caller).depositAmount = 0
        · rw [if_pos hd] at h
          simp only [] at h
          cases h
          refine ⟨_, rfl, ?_, ?_, ?_, ?_, ?_, ?_, ?_, rfl⟩
          · intro c b
            by_cases hcb : c = cid ∧ b = caller
            · obtain ⟨h1, h2⟩ := hcb
              subst h1; subst h2
              simp [hd]
            · simp [hcb]
          · intro c b
            by_cases hcb : c = cid ∧ b = caller
            · obtain ⟨h1, h2⟩ := hcb
              subst h1; subst h2
              simp
            · simp [hcb]
          · intro c b hcb
            simp [hcb]
          · intro c hc
            simp [hc]
          · intro c
            by_cases hc : c = cid <;> simp [hc]
          · intro c
            by_cases hc : c = cid <;> simp [hc]
          · intro c
            by_cases hc : c = cid <;> simp [hc]
        · rw [if_neg hd] at h
          obtain ⟨s1, heq, hp, hcne, hccid, hbal, how, hcnt⟩ :=
            claimInterestAux_char s cid caller now hd
          rw [heq] at h
          simp only [] at h
          cases h
          refine ⟨s1, rfl, ?_, ?_, ?_, ?_, ?_, ?_, ?_, hcnt⟩
          · intro c b
            rw [hp]
            by_cases hcb : c = cid ∧ b = caller
            · obtain ⟨h1, h2⟩ := hcb
              subst h1; subst h2
              simp
            · simp [hcb]
          · intro c b
            rw [hp]
            by_cases hcb : c = cid ∧ b = caller
            · obtain ⟨h1, h2⟩ := hcb
              subst h1; subst h2
              simp
            · simp [hcb]
          · intro c b hcb
            rw [hp, if_neg hcb]
          · intro c hc
            exact hcne c hc
          · intro c
            by_cases hc : c = cid
            · subst hc; rw [hccid]
            · rw [hcne c hc]
          · intro c
            by_cases hc : c = cid
            · subst hc; rw [hccid]
            · rw [hcne c hc]
          · intro c
            by_cases hc : c = cid
            · subst hc; rw [hccid]
            · rw [hcne c hc]
    · rw [if_pos (by simpa using ha)] at h
      exact absurd h (by simp)

/-- Inversion of a successful vote: all five checks passed, the voter is now
marked, the nominee's tally grew, nothing else changed. -/
theorem vote_ok_inv (s : LedgerState) (caller : Addr) (now cid : Nat)
    (nominee : Addr) (s' : LedgerState)
    (h : vote s caller now cid nominee = .ok s') :
    now ≤ (s.contests cid).votingDeadline ∧
    (s.contests cid).active = true ∧
    (s.contestParticipants cid caller).depositAmount ≠ 0 ∧
    (s.contestParticipants cid caller).hasVoted = false ∧
    (s.contestParticipants cid nominee).depositAmount ≠ 0 ∧
    s'.contests = s.contests ∧
    s'.contestCounter = s.contestCounter ∧
    s'.tokenBalance = s.tokenBalance ∧
    (∀ c b, (s'.contestParticipants c b).depositAmount =
      (s.contestParticipants c b).depositAmount) ∧
    (∀ c b, ¬(c = cid ∧ (b = caller ∨ b = nominee)) →
      s'.contestParticipants c b = s.contestParticipants c b) ∧
    (∀ c b, (s'.contestParticipants c b).hasVoted = true →
      (s.contestParticipants c b).hasVoted = true ∨ (c = cid ∧ b = caller)) := by
  unfold vote at h
  by_cases h1 : now ≤ (s.contests cid).votingDeadline
  · rw [if_neg (by simpa using h1)] at h
    by_cases h2 : (s.contests cid).active
    · rw [if_neg (by simpa using h2)] at h
      by_cases h3 : (s.contestParticipants cid caller).depositAmount = 0
      · rw [if_pos h3] at h
        exact absurd h (by simp)
      · rw [if_neg h3] at h
        by_cases h4 : (s.contestParticipants cid caller).hasVoted
        · rw [if_pos h4] at h
          exact absurd h (by simp)
        · rw [if_neg h4] at h
          by_cases h5 : (s.contestParticipants cid nominee).depositAmount = 0
          · rw [if_pos h5] at h
            exact absurd h (by simp)
          · rw [if_neg h5] at h
            simp only [] at h
            cases h
            refine ⟨h1, h2, h3, by simpa using h4, h5, rfl, rfl, rfl, ?_, ?_, ?_⟩
            · intro c b
              by_cases hc : c = cid
              · by_cases hbn : b = nominee
                · by_cases hnc : nominee = caller
                  · simp [hc, hbn, hnc]
                  · simp [hc, hbn, hnc]
                · by_cases hbc : b = caller
                  · have hcn : ¬ caller = nominee := hbc ▸ hbn
                    have hnc : ¬ nominee = caller := fun e => hcn e.symm
                    simp [hc, hbc, hcn, hnc]
                  · simp [hc, hbn, hbc]
              · simp [hc]
            · intro c b hcb
              by_cases hc : c = cid
              · have hbc : ¬ b = caller := fun e => hcb ⟨hc, Or.inl e⟩
                have hbn : ¬ b = nominee := fun e => hcb ⟨hc, Or.inr e⟩
                simp [hbc, hbn]
              · simp [hc]
            · intro c b
              by_cases hc : c = cid
              · by_cases hbn : b = nominee
                · by_cases hnc : nominee = caller
                  · intro _
                    exact Or.inr ⟨hc, hbn.trans hnc⟩
                  · rw [setParticipant_participants,
                      if_pos ⟨hc, hbn⟩, setParticipant_participants,
                      if_neg (by simp [hnc])]
                    intro hv
                    refine Or.inl ?_
                    rw [hc, hbn]
                    simpa using hv
                · by_cases hbc : b = caller
                  · intro _
                    exact Or.inr ⟨hc, hbc⟩
                  · rw [setParticipant_participants,
                      if_neg (by simp [hbn]), setParticipant_participants,
                      if_neg (by simp [hbc])]
                    exact fun hv => Or.inl hv
              · rw [setParticipant_participants,
                  if_neg (by simp [hc]), setParticipant_participants,
                  if_neg (by simp [hc])]
                exact fun hv => Or.inl hv
    · rw [if_pos (by simpa using h2)] at h
      exact absurd h (by simp)
  · rw [if_pos (by simpa using h1)] at h
    exact absurd h (by simp)

/-- Inversion of a successful contest creation. -/
theorem createContest_ok_inv (s : LedgerState) (caller : Addr) (now : Nat)
    (t d g : String) (dur : Nat) (s' : LedgerState)
    (h : applyOp s (.createContest caller now t d g dur) = .ok s') :
    caller = s.owner ∧
    s'.contestCounter = s.contestCounter + 1 ∧
    s'.contestParticipants = s.contestParticipants ∧
    s'.tokenBalance = s.tokenBalance ∧
    s'.owner = s.owner ∧
    (∀ c, c ≠ s.contestCounter + 1 → s'.contests c = s.contests c) ∧
    s'.contests (s.contestCounter + 1) =
      { title := t, description := d, goals := g, totalDeposited := 0,
        totalInterestGenerated := 0, participantsCount := 0,
        votingDeadline := now + dur, active := true } := by
  simp only [applyOp, createContest] at h
  by_cases hc : caller = s.owner
  · rw [if_neg (by simpa using hc)] at h
    simp only [Except.map] at h
    cases h
    refine ⟨hc, rfl, rfl, rfl, rfl, ?_, by simp⟩
    intro c hcne
    simp [hcne]
  · rw [if_pos (by simpa using hc)] at h
    exact absurd h (by simp [Except.map])

/-- The winner-search loop never changes the address it was started with. -/
theorem getWinnerLoop_const (lookup : Addr → Nat) (fuel maxVotes : Nat)
    (w : Addr) : getWinnerLoop lookup fuel maxVotes w = w := by
  induction fuel generalizing maxVotes with
  | zero => rfl
  | succ n ih =>
    unfold getWinnerLoop
    by_cases hv : lookup w > maxVotes
    · rw [if_pos hv]
      exact ih _
    · rw [if_neg hv]
      exact ih _

/-- endContest deactivates the contest and then calls getWinner on the
updated state, whose active check can no longer pass, so every call
reverts: at one of the two leading checks, or else inside getWinner. -/
theorem endContest_never_ok (s : LedgerState) (caller : Addr) (now cid : Nat) :
    ∃ e, endContest s caller now cid = .error e := by
  unfold endContest
  by_cases h1 : caller = s.owner
  · rw [if_neg (by simpa using h1)]
    by_cases h2 : (s.contests cid).active
    · rw [if_neg (by simpa using h2)]
      by_cases h3 : now > (s.contests cid).votingDeadline
      · refine ⟨.ContestStillActive, ?_⟩
        simp [getWinner, h3]
      · refine ⟨.VotingStillOpen, ?_⟩
        simp [getWinner, h3]
    · rw [if_pos (by simpa using h2)]
      exact ⟨.AlreadyInactive, rfl⟩
  · rw [if_pos (by simpa using h1)]
    exact ⟨.NotOwner, rfl⟩

theorem applyOp_endContest_never_ok (s : LedgerState) (caller : Addr)
    (now cid : Nat) (s' : LedgerState) :
    applyOp s (.endContest caller now cid) ≠ .ok s' := by
  obtain ⟨e, he⟩ := endContest_never_ok s caller now cid
  simp [applyOp, he, Except.map]

theorem applyPrincipal_participants (s : LedgerState) (cid : Nat) (a : Addr)
    (now value : Nat) (c : Nat) (b : Addr) :
    (applyPrincipal s cid a now value).contestParticipants c b =
      if c = cid ∧ b = a then
        { s.contestParticipants cid a with
            depositAmount := (s.contestParticipants cid a).depositAmount + value,
            depositTimestamp := now }
      else s.contestParticipants c b := by
  simp [applyPrincipal]

theorem applyPrincipal_contests_ne (s : LedgerState) (cid : Nat) (a : Addr)
    (now value : Nat) (c : Nat) (hc : c ≠ cid) :
    (applyPrincipal s cid a now value).contests c = s.contests c := by
  simp [applyPrincipal, hc]

theorem applyPrincipal_contests_cid (s : LedgerState) (cid : Nat) (a : Addr)
    (now value : Nat) :
    (applyPrincipal s cid a now value).contests cid =
      { s.contests cid with
          totalDeposited := (s.contests cid).totalDeposited + value } := by
  simp [applyPrincipal]

theorem applyPrincipal_counter (s : LedgerState) (cid : Nat) (a : Addr)
    (now value : Nat) :
    (applyPrincipal s cid a now value).contestCounter = s.contestCounter := rfl

theorem ledgerInv_init (owner : Addr) : LedgerInv (initState owner) := by
  refine ⟨?_, ?_, ?_⟩
  · intro cid _
    exact ⟨rfl, fun a => rfl⟩
  · intro cid S hS
    simp [initState, ContestDetails.init, Participant.init]
  · intro cid a hv
    simp [initState, Participant.init] at hv

theorem ledgerInv_step (s s' : LedgerState) (op : Op) (hinv : LedgerInv s)
    (h : applyOp s op = .ok s') : LedgerInv s' := by
  obtain ⟨hfresh, hsum, hvoted⟩ := hinv
  cases op with
  | createContest caller now t d g dur =>
    obtain ⟨hc, hcnt, hparts, hbal, how, hother, hnew⟩ :=
      createContest_ok_inv s caller now t d g dur s' h
    refine ⟨?_, ?_, ?_⟩
    · intro cid hcid
      have hne : cid ≠ s.contestCounter + 1 := by
        rcases hcid with h0 | hlt
        · subst h0
          exact (Nat.succ_ne_zero _).symm
        · rw [hcnt] at hlt
          exact Nat.ne_of_gt hlt
      have hold : cid = 0 ∨ s.contestCounter < cid := by
        rcases hcid with h0 | hlt
        · exact Or.inl h0
        · rw [hcnt] at hlt
          exact Or.inr (Nat.lt_of_succ_lt hlt)
      obtain ⟨hcd, hp⟩ := hfresh cid hold
      refine ⟨(hother cid hne).trans hcd, fun a => ?_⟩
      rw [hparts]
      exact hp a
    · intro cid S hS
      by_cases hcid : cid = s.contestCounter + 1
      · subst hcid
        rw [hnew]
        have hp := (hfresh (s.contestCounter + 1)
          (Or.inr (Nat.lt_succ_self _))).2
        simp only []
        symm
        apply Finset.sum_eq_zero
        intro a _
        rw [hparts, hp a]
        rfl
      · rw [hother cid hcid, hparts]
        apply hsum cid S
        intro a ha
        apply hS a
        rw [hparts]
        exact ha
    · intro cid a hv
      rw [hparts] at hv ⊢
      exact hvoted cid a hv
  | deposit caller now cid0 value =>
    simp only [applyOp] at h
    obtain ⟨hv, ha, hf, s1, hs', hdep, hvot, hoth, hcne, htot, hact, hddl,
      hcnt⟩ := deposit_ok_inv s caller now cid0 value s' h
    have hcnt' : s'.contestCounter = s.contestCounter := by
      rw [hs', applyPrincipal_counter, hcnt]
    refine ⟨?_, ?_, ?_⟩
    · intro cid hcid
      rw [hcnt'] at hcid
      have hne : cid ≠ cid0 := by
        intro e
        obtain ⟨hcd, _⟩ := hfresh cid hcid
        rw [e] at hcd
        rw [hcd] at ha
        simp [ContestDetails.init] at ha
      obtain ⟨hcd, hp⟩ := hfresh cid hcid
      constructor
      · rw [hs', applyPrincipal_contests_ne _ _ _ _ _ _ hne, hcne cid hne]
        exact hcd
      · intro b
        rw [hs', applyPrincipal_participants,
          if_neg (fun hx => hne hx.1), hoth cid b (fun hx => hne hx.1)]
        exact hp b
    · intro cid S hS
      by_cases hcid : cid = cid0
      · subst hcid
        have hcal_mem : caller ∈ S := by
          apply hS caller
          rw [hs', applyPrincipal_participants, if_pos ⟨rfl, rfl⟩]
          simp [hv]
        have hSold : ∀ a,
            (s.contestParticipants cid a).depositAmount ≠ 0 → a ∈ S := by
          intro a hane
          apply hS a
          rw [hs', applyPrincipal_participants]
          by_cases hac : a = caller
          · subst hac
            rw [if_pos ⟨rfl, rfl⟩]
            simp [hv]
          · rw [if_neg (fun hx => hac hx.2), hoth cid a (fun hx => hac hx.2)]
            exact hane
        have hpoint : ∀ a ∈ S, (s'.contestParticipants cid a).depositAmount =
            (s.contestParticipants cid a).depositAmount +
              (if a = caller then value else 0) := by
          intro a _
          rw [hs', applyPrincipal_participants]
          by_cases hac : a = caller
          · subst hac
            rw [if_pos ⟨rfl, rfl⟩, if_pos rfl]
            simp [hdep]
          · rw [if_neg (fun hx => hac hx.2), if_neg hac,
              hoth cid a (fun hx => hac hx.2), Nat.add_zero]
        have hsum' := hsum cid S hSold
        calc (s'.contests cid).totalDeposited
            = (s.contests cid).totalDeposited + value := by
              rw [hs', applyPrincipal_contests_cid]
              simp only []
              rw [htot]
          _ = (∑ a ∈ S, (s.contestParticipants cid a).depositAmount) +
              value := by rw [hsum']
          _ = ∑ a ∈ S, (s'.contestParticipants cid a).depositAmount := by
              rw [Finset.sum_congr rfl hpoint, Finset.sum_add_distrib,
                Finset.sum_ite_eq' S caller (fun _ => value), if_pos hcal_mem]
      · have htot' : (s'.contests cid).totalDeposited =
            (s.contests cid).totalDeposited := by
          rw [hs', applyPrincipal_contests_ne _ _ _ _ _ _ hcid, hcne cid hcid]
        have hdep' : ∀ b, (s'.contestParticipants cid b).depositAmount =
            (s.contestParticipants cid b).depositAmount := by
          intro b
          rw [hs', applyPrincipal_participants,
            if_neg (fun hx => hcid hx.1), hoth cid b (fun hx => hcid hx.1)]
        rw [htot', Finset.sum_congr rfl (fun a _ => hdep' a)]
        apply hsum
        intro a ha
        apply hS a
        rw [hdep']
        exact ha
    · intro cid a hvv
      rw [hs', applyPrincipal_participants] at hvv ⊢
      by_cases hca : cid = cid0 ∧ a = caller
      · rw [if_pos hca] at hvv ⊢
        simp [hv]
      · rw [if_neg hca] at hvv ⊢
        rw [hvot] at hvv
        rw [hdep]
        exact hvoted cid a hvv
  | claimInterest caller now cid0 =>
    simp only [applyOp, claimInterest] at h
    obtain ⟨hd, hp, hcne, hccid, hbal, how, hcnt⟩ :=
      claimInterestAux_ok_inv s cid0 caller now s' h
    have hdep' : ∀ c b, (s'.contestParticipants c b).depositAmount =
        (s.contestParticipants c b).depositAmount := by
      intro c b
      rw [hp]
      by_cases hcb : c = cid0 ∧ b = caller
      · obtain ⟨e1, e2⟩ := hcb
        subst e1; subst e2
        rw [if_pos ⟨rfl, rfl⟩]
    
      · rw [if_neg hcb]
    have hvot' : ∀ c b, (s'.contestParticipants c b).hasVoted =
        (s.contestParticipants c b).hasVoted := by
      intro c b
      rw [hp]
      by_cases hcb : c = cid0 ∧ b = caller
      · obtain ⟨e1, e2⟩ := hcb
        subst e1; subst e2
        rw [if_pos ⟨rfl, rfl⟩]
      · rw [if_neg hcb]
    have htot' : ∀ c, (s'.contests c).totalDeposited =
        (s.contests c).totalDeposited := by
      intro c
      by_cases hc : c = cid0
      · subst hc
        rw [hccid]
      · rw [hcne c hc]
    refine ⟨?_, ?_, ?_⟩
    · intro cid hcid
      rw [hcnt] at hcid
      have hne : cid ≠ cid0 := by
        intro e
        obtain ⟨_, hpa⟩ := hfresh cid hcid
        rw [e] at hpa
        rw [hpa caller] at hd
        exact hd rfl
      obtain ⟨hcd, hpa⟩ := hfresh cid hcid
      refine ⟨(hcne cid hne).trans hcd, fun b => ?_⟩
      rw [hp, if_neg (fun hx => hne hx.1)]
      exact hpa b
    · intro cid S hS
      rw [htot', Finset.sum_congr rfl (fun a _ => hdep' cid a)]
      apply hsum
      intro a ha
      apply hS a
      rw [hdep']
      exact ha
    · intro cid a hvv
      rw [hvot'] at hvv
      rw [hdep']
      exact hvoted cid a hvv
  | vote caller now cid0 nominee =>
    simp only [applyOp] at h
    obtain ⟨h1, h2, h3, h4, h5, hcsts, hcnt, hbal, hdep, hoth, hvot⟩ :=
      vote_ok_inv s caller now cid0 nominee s' h
    refine ⟨?_, ?_, ?_⟩
    · intro cid hcid
      rw [hcnt] at hcid
      have hne : cid ≠ cid0 := by
        intro e
        obtain ⟨hcd, _⟩ := hfresh cid hcid
        rw [e] at hcd
        rw [hcd] at h2
        simp [ContestDetails.init] at h2
      obtain ⟨hcd, hpa⟩ := hfresh cid hcid
      refine ⟨by rw [hcsts]; exact hcd, fun b => ?_⟩
      rw [hoth cid b (fun hx => hne hx.1)]
      exact hpa b
    · intro cid S hS
      rw [hcsts, Finset.sum_congr rfl (fun a _ => hdep cid a)]
      apply hsum
      intro a ha
      apply hS a
      rw [hdep]
      exact ha
    · intro cid a hvv
      rcases hvot cid a hvv with hold | ⟨e1, e2⟩
      · rw [hdep]
        exact hvoted cid a hold
      · subst e1; subst e2
        rw [hdep]
        exact h3
  | endContest caller now cid0 =>
    exact absurd h (applyOp_endContest_never_ok s caller now cid0 s')

theorem reachable_ledgerInv (owner : Addr) (s : LedgerState)
    (h : Reachable owner s) : LedgerInv s := by
  induction h with
  | init => exact ledgerInv_init owner
  | step op hr hok ih => exact ledgerInv_step _ _ op ih hok

theorem totalDeposited_never_decreases (s s' : LedgerState) (op : Op)
    (hfresh : FreshInv s) (h : applyOp s op = .ok s') (cid : Nat) :
    (s.contests cid).totalDeposited ≤ (s'.contests cid).totalDeposited := by
  cases op with
  | createContest caller now t d g dur =>
    obtain ⟨_, _, _, _, _, hother, hnew⟩ :=
      createContest_ok_inv s caller now t d g dur s' h
    by_cases hcid : cid = s.contestCounter + 1
    · subst hcid
      have hcd := (hfresh (s.contestCounter + 1)
        (Or.inr (Nat.lt_succ_self _))).1
      rw [hcd, hnew]
      exact Nat.le_refl _
    · have he : s'.contests cid = s.contests cid := hother cid hcid
      rw [he]
  | deposit caller now cid0 value =>
    simp only [applyOp] at h
    obtain ⟨_, _, _, s1, hs', _, _, _, hcne, htot, _, _, _⟩ :=
      deposit_ok_inv s caller now cid0 value s' h
    by_cases hcid : cid = cid0
    · subst hcid
      rw [hs', applyPrincipal_contests_cid]
      simp only []
      rw [htot]
      exact Nat.le_add_right _ _
    · rw [hs', applyPrincipal_contests_ne _ _ _ _ _ _ hcid, hcne cid hcid]
  | claimInterest caller now cid0 =>
    simp only [applyOp, claimInterest] at h
    obtain ⟨_, _, hcne, hccid, _, _, _⟩ :=
      claimInterestAux_ok_inv s cid0 caller now s' h
    by_cases hcid : cid = cid0
    · subst hcid
      rw [hccid]
    · rw [hcne cid hcid]
  | vote caller now cid0 nominee =>
    simp only [applyOp] at h
    obtain ⟨_, _, _, _, _, hcsts, _⟩ :=
      vote_ok_inv s caller now cid0 nominee s' h
    rw [hcsts]
  | endContest caller now cid0 =>
    exact absurd h (applyOp_endContest_never_ok s caller now cid0 s')

/-- A settlement performed at the participant's recorded last claim time is
a no-op: zero elapsed time, zero accrual, the state is returned unchanged. -/
theorem claimInterestAux_at_lastTime (s : LedgerState) (cid : Nat) (a : Addr)
    (now : Nat) (hd : (s.contestParticipants cid a).depositAmount ≠ 0)
    (hl : (s.contestParticipants cid a).lastInterestClaimTime = now) :
    claimInterestAux s cid a now = .ok s := by
  simp only [claimInterestAux]
  rw [if_neg hd, hl]
  simp only [Nat.sub_self, Nat.mul_zero, Nat.zero_div, gt_iff_lt,
    Nat.lt_irrefl, if_false]
  have hrec : ({ s.contestParticipants cid a with
      lastInterestClaimTime := now } : Participant) =
      s.contestParticipants cid a := by
    rw [← hl]
  rw [hrec, setParticipant_self]

theorem demo4_reachable : Reachable 7 demo4 := by
  have h0 : Reachable 7 demo0 := Reachable.init
  have h1 : Reachable 7 demo1 :=
    Reachable.step (.createContest 7 0 "t" "d" "g" 10) h0 rfl
  have h2 : Reachable 7 demo2 := Reachable.step (.deposit 1 0 1 100) h1 rfl
  have h3 : Reachable 7 demo3 := Reachable.step (.deposit 2 0 1 100) h2 rfl
  exact Reachable.step (.vote 1 5 1 2) h3 rfl

/-- C6: a successful deposit of a positive value into an active contest by a
non-finished participant adds the value to the participant's depositAmount
and the contest's totalDeposited and stamps depositTimestamp with now; a
first deposit additionally increments participantsCount and sets
lastInterestClaimTime to now, while a later deposit settles outstanding
interest through the accrual routine before the principal update. -/
theorem deposit_spec (s : LedgerState) (caller : Addr) (now cid value : Nat)
    (hv : value ≠ 0) (ha : (s.contests cid).active = true)
    (hf : (s.contestParticipants cid caller).hasFinished = false) :
    ∃ s', deposit s caller now cid value = .ok s' ∧
      (s'.contestParticipants cid caller).depositAmount =
        (s.contestParticipants cid caller).depositAmount + value ∧
      (s'.contestParticipants cid caller).depositTimestamp = now ∧
      (s'.contests cid).totalDeposited =
        (s.contests cid).totalDeposited + value ∧
      ((s.contestParticipants cid caller).depositAmount = 0 →
        (s'.contests cid).participantsCount =
          (s.contests cid).participantsCount + 1 ∧
        (s'.contestParticipants cid caller).lastInterestClaimTime = now) ∧
      ((s.contestParticipants cid caller).depositAmount ≠ 0 →
        ∃ s1, claimInterestAux s cid caller now = .ok s1 ∧
          s' = applyPrincipal s1 cid caller now value) := by
  unfold deposit
  rw [if_neg hv, if_neg (by simp [ha]), if_neg (by simp [hf])]
  by_cases hd : (s.contestParticipants cid caller).depositAmount = 0
  · rw [if_pos hd]
    simp only []
    refine ⟨_, rfl, ?_, ?_, ?_, ?_, fun hdd => absurd hd hdd⟩
    · rw [applyPrincipal_participants, if_pos ⟨rfl, rfl⟩]
      simp
    · rw [applyPrincipal_participants, if_pos ⟨rfl, rfl⟩]
    · rw [applyPrincipal_contests_cid]
      simp
    · intro _
      constructor
      · rw [applyPrincipal_contests_cid]
        simp
      · rw [applyPrincipal_participants, if_pos ⟨rfl, rfl⟩]
        simp
  · rw [if_neg hd]
    obtain ⟨s1, heq, hp, hcne, hccid, hbal, how, hcnt⟩ :=
      claimInterestAux_char s cid caller now hd
    rw [heq]
    simp only []
    refine ⟨_, rfl, ?_, ?_, ?_, fun h0 => absurd h0 hd, fun _ => ⟨s1, rfl, rfl⟩⟩
    · rw [applyPrincipal_participants, if_pos ⟨rfl, rfl⟩,
        hp cid caller, if_pos ⟨rfl, rfl⟩]
    · rw [applyPrincipal_participants, if_pos ⟨rfl, rfl⟩]
    · rw [applyPrincipal_contests_cid]
      simp only []
      rw [hccid]

theorem deposit_spec_witness :
    ∃ s', deposit demo1 1 0 1 100 = .ok s' ∧
      (s'.contestParticipants 1 1).depositAmount =
        (demo1.contestParticipants 1 1).depositAmount + 100 := by
  obtain ⟨s', hok, hdep, _⟩ := deposit_spec demo1 1 0 1 100 (by decide) rfl rfl
  exact ⟨s', hok, hdep⟩

/-- C4: for a participant with a positive deposit, getAccruedInterest and the
interest minted by claimInterest both equal the two-step truncating formula
with rate 5 and the elapsed time since the last claim; the 1000-unit
deposit held for exactly one year yields 50; and a zero deposit always
yields zero accrued interest. -/
theorem accrual_formula (s : LedgerState) (now cid : Nat) (a : Addr)
    (hd : (s.contestParticipants cid a).depositAmount ≠ 0)
    (hle : (s.contestParticipants cid a).lastInterestClaimTime ≤ now) :
    getAccruedInterest s now cid a =
      (s.contestParticipants cid a).depositAmount * INTEREST_RATE / 100 *
        (now - (s.contestParticipants cid a).lastInterestClaimTime) /
        SECONDS_PER_YEAR ∧
    (∃ s', claimInterest s a now cid = .ok s' ∧
      s'.tokenBalance a = s.tokenBalance a + getAccruedInterest s now cid a) ∧
    (∀ (s2 : LedgerState) (n c : Nat) (b : Addr),
      (s2.contestParticipants c b).depositAmount = 0 →
      getAccruedInterest s2 n c b = 0) ∧
    getAccruedInterest demoK SECONDS_PER_YEAR 1 1 = 50 := by
  refine ⟨by simp [getAccruedInterest, hd], ?_, ?_, by decide⟩
  · obtain ⟨s1, heq, hp, hcne, hccid, hbal, how, hcnt⟩ :=
      claimInterestAux_char s cid a now hd
    refine ⟨s1, heq, ?_⟩
    rw [hbal a, if_pos rfl]
    simp [getAccruedInterest, hd, accruedOf]
  · intro s2 n c b hz
    simp [getAccruedInterest, hz]

theorem accrual_formula_witness :
    (demoK.contestParticipants 1 1).depositAmount ≠ 0 ∧
    getAccruedInterest demoK SECONDS_PER_YEAR 1 1 = 50 :=
  ⟨by decide,
    (accrual_formula demoK SECONDS_PER_YEAR 1 1 (by decide) (by decide)).2.2.2⟩

/-- C8: once a settlement has succeeded at clock value now, repeating
claimInterest at the same clock value succeeds, accrues nothing, mints
nothing and returns the state unchanged, because lastInterestClaimTime was
reset to now by the first settlement regardless of the accrued amount. -/
theorem claimInterest_idempotent (s : LedgerState) (a : Addr) (now cid : Nat)
    (s1 : LedgerState) (h : claimInterest s a now cid = .ok s1) :
    claimInterest s1 a now cid = .ok s1 ∧
    (s1.contestParticipants cid a).lastInterestClaimTime = now := by
  obtain ⟨hd, hp, hcne, hccid, hbal, how, hcnt⟩ :=
    claimInterestAux_ok_inv s cid a now s1 h
  have hp1 : s1.contestParticipants cid a =
      { s.contestParticipants cid a with lastInterestClaimTime := now } := by
    rw [hp, if_pos ⟨rfl, rfl⟩]
  have hlast : (s1.contestParticipants cid a).lastInterestClaimTime = now := by
    rw [hp1]
  have hd1 : (s1.contestParticipants cid a).depositAmount ≠ 0 := by
    rw [hp1]
    exact hd
  exact ⟨claimInterestAux_at_lastTime s1 cid a now hd1 hlast, hlast⟩

theorem claimInterest_idempotent_witness :
    claimInterest demoK1 1 SECONDS_PER_YEAR 1 = .ok demoK1 ∧
    (demoK1.contestParticipants 1 1).lastInterestClaimTime =
      SECONDS_PER_YEAR :=
  claimInterest_idempotent demoK 1 SECONDS_PER_YEAR 1 demoK1 rfl

/-- C5: in every reachable state, each contest's totalDeposited equals the
sum of its participants' depositAmount (over any finite set covering the
support), and no successful operation ever decreases totalDeposited, in
particular while the contest is active. -/
theorem totalDeposited_invariant (owner : Addr) (s : LedgerState)
    (h : Reachable owner s) (cid : Nat) (S : Finset Addr)
    (hS : ∀ a, (s.contestParticipants cid a).depositAmount ≠ 0 → a ∈ S) :
    (s.contests cid).totalDeposited =
      ∑ a ∈ S, (s.contestParticipants cid a).depositAmount ∧
    ∀ (op : Op) (s' : LedgerState), applyOp s op = .ok s' →
      (s.contests cid).totalDeposited ≤ (s'.contests cid).totalDeposited := by
  obtain ⟨hfresh, hsum, _⟩ := reachable_ledgerInv owner s h
  exact ⟨hsum cid S hS,
    fun op s' hok => totalDeposited_never_decreases s s' op hfresh hok cid⟩

theorem totalDeposited_invariant_witness :
    ((initState 0).contests 1).totalDeposited =
      ∑ a ∈ (∅ : Finset Addr),
        ((initState 0).contestParticipants 1 a).depositAmount ∧
    ∀ (op : Op) (s' : LedgerState), applyOp (initState 0) op = .ok s' →
      ((initState 0).contests 1).totalDeposited ≤
        (s'.contests 1).totalDeposited :=
  totalDeposited_invariant 0 (initState 0) Reachable.init 1 ∅
    (fun a ha => absurd rfl ha)

/-- C10: a contest id never allocated by createContest still holds the
zero-initialised record in every reachable state, so deposit of a positive
value fails with the ordinary inactive-contest error and vote at any
positive time fails with the ordinary closed-voting error; no separate
nonexistent-contest error exists in the error type. -/
theorem uncreated_contest_indistinguishable (owner : Addr) (s : LedgerState)
    (h : Reachable owner s) (cid : Nat)
    (hcid : cid = 0 ∨ s.contestCounter < cid) :
    s.contests cid = ContestDetails.init ∧
    (∀ (a : Addr) (now value : Nat), value ≠ 0 →
      deposit s a now cid value = .error .ContestInactive) ∧
    (∀ (a : Addr) (now : Nat) (nominee : Addr), 0 < now →
      vote s a now cid nominee = .error .VotingClosed) := by
  obtain ⟨hfresh, _, _⟩ := reachable_ledgerInv owner s h
  obtain ⟨hcd, hp⟩ := hfresh cid hcid
  refine ⟨hcd, ?_, ?_⟩
  · intro a now value hv
    unfold deposit
    rw [if_neg hv, if_pos (by rw [hcd]; simp [ContestDetails.init])]
  · intro a now nominee hn
    unfold vote
    rw [if_pos (by rw [hcd]; simpa [ContestDetails.init] using Nat.pos_iff_ne_zero.mp hn)]

theorem uncreated_contest_indistinguishable_witness :
    (initState 0).contests 1 = ContestDetails.init ∧
    deposit (initState 0) 3 5 1 10 = .error .ContestInactive ∧
    vote (initState 0) 3 5 1 4 = .error .VotingClosed := by
  have hthm := uncreated_contest_indistinguishable 0 (initState 0)
    Reachable.init 1 (Or.inr (by decide))
  exact ⟨hthm.1, hthm.2.1 3 5 10 (by decide), hthm.2.2 3 5 4 (by decide)⟩

/-- C3 counterexample: in a state whose contest 1 is ended (active = false)
with a participant holding a 100-unit deposit, claimInterest succeeds one
year later, mints 5 units of interest and advances the participant's last
claim time: an ended contest does not block this state mutation. -/
theorem claimInterest_mutates_ended_contest :
    (demo4i.contests 1).active = false ∧
    applyOp demo4i (.claimInterest 1 SECONDS_PER_YEAR 1) = .ok demo5 ∧
    demo4i.tokenBalance 1 = 0 ∧
    demo5.tokenBalance 1 = 5 ∧
    (demo4i.contestParticipants 1 1).lastInterestClaimTime = 0 ∧
    (demo5.contestParticipants 1 1).lastInterestClaimTime =
      SECONDS_PER_YEAR :=
  ⟨rfl, rfl, rfl, rfl, rfl, rfl⟩

/-- C3 (amended): on a contest whose active flag is false, deposit and vote
always fail (deposit with InvalidAmount on a zero value and ContestInactive
otherwise; vote with ContestInactive while the deadline has not passed and
VotingClosed after), but claimInterest is not gated on the active flag and
succeeds for every participant with a positive deposit. -/
theorem ended_contest_operations (s : LedgerState) (cid : Nat)
    (h : (s.contests cid).active = false) :
    (∀ (a : Addr) (now value : Nat), deposit s a now cid value =
      .error (if value = 0 then .InvalidAmount else .ContestInactive)) ∧
    (∀ (a : Addr) (now : Nat) (nominee : Addr), vote s a now cid nominee =
      .error (if now ≤ (s.contests cid).votingDeadline then .ContestInactive
        else .VotingClosed)) ∧
    (∀ (a : Addr) (now : Nat),
      (s.contestParticipants cid a).depositAmount ≠ 0 →
      ∃ s', claimInterest s a now cid = .ok s') := by
  refine ⟨?_, ?_, ?_⟩
  · intro a now value
    unfold deposit
    by_cases hv : value = 0
    · rw [if_pos hv, if_pos hv]
    · rw [if_neg hv, if_neg hv, if_pos (by simp [h])]
  · intro a now nominee
    unfold vote
    by_cases hn : now ≤ (s.contests cid).votingDeadline
    · rw [if_pos hn, if_neg (by simpa using hn), if_pos (by simp [h])]
    · rw [if_neg hn, if_pos (by simpa using hn)]
  · intro a now hd
    obtain ⟨s', heq, _⟩ := claimInterestAux_char s cid a now hd
    exact ⟨s', heq⟩

theorem ended_contest_operations_witness :
    (demo4i.contests 1).active = false ∧
    deposit demo4i 1 20 1 50 = .error .ContestInactive ∧
    vote demo4i 1 20 1 2 = .error .VotingClosed ∧
    ∃ s', claimInterest demo4i 1 20 1 = .ok s' := by
  have hthm := ended_contest_operations demo4i 1 rfl
  refine ⟨rfl, ?_, ?_, hthm.2.2 1 20 (by decide)⟩
  · have h1 := hthm.1 1 20 50
    rw [if_neg (by decide)] at h1
    exact h1
  · have h2 := hthm.2.1 1 20 2
    rw [if_neg (by decide)] at h2
    exact h2

/-- C9 counterexample: address 1 voted successfully at time 5; its second
vote call, made at time 11 after the deadline 10, fails with VotingClosed
rather than AlreadyVoted, so a later vote by a voter does not always fail
with AlreadyVoted. -/
theorem second_vote_after_deadline_not_AlreadyVoted :
    applyOp demo3 (.vote 1 5 1 2) = .ok demo4 ∧
    (demo4.contestParticipants 1 1).hasVoted = true ∧
    (demo4.contests 1).votingDeadline = 10 ∧
    applyOp demo4 (.vote 1 11 1 2) = .error .VotingClosed :=
  ⟨rfl, rfl, rfl, rfl⟩

/-- C9 (amended): in any reachable state, a participant already marked as
having voted can never vote again: every later vote call fails, and it
fails with AlreadyVoted whenever voting is still open and the contest is
still active, regardless of the nominee; after the deadline or once the
contest is inactive the failure is VotingClosed or ContestInactive
instead. -/
theorem vote_at_most_once (owner : Addr) (s : LedgerState)
    (h : Reachable owner s) (cid : Nat) (caller : Addr)
    (hv : (s.contestParticipants cid caller).hasVoted = true)
    (now : Nat) (nominee : Addr) :
    (∃ e, vote s caller now cid nominee = .error e) ∧
    (now ≤ (s.contests cid).votingDeadline → (s.contests cid).active = true →
      vote s caller now cid nominee = .error .AlreadyVoted) := by
  obtain ⟨_, _, hvoted⟩ := reachable_ledgerInv owner s h
  have hd := hvoted cid caller hv
  constructor
  · unfold vote
    by_cases h1 : now ≤ (s.contests cid).votingDeadline
    · rw [if_neg (by simpa using h1)]
      by_cases h2 : (s.contests cid).active
      · rw [if_neg (by simpa using h2), if_neg hd, if_pos hv]
        exact ⟨_, rfl⟩
      · rw [if_pos (by simpa using h2)]
        exact ⟨_, rfl⟩
    · rw [if_pos (by simpa using h1)]
      exact ⟨_, rfl⟩
  · intro h1 h2
    unfold vote
    rw [if_neg (by simpa using h1), if_neg (by simp [h2]), if_neg hd, if_pos hv]

theorem vote_at_most_once_witness :
    (demo4.contestParticipants 1 1).hasVoted = true ∧
    (∃ e, vote demo4 1 6 1 2 = .error e) ∧
    vote demo4 1 6 1 2 = .error .AlreadyVoted := by
  have hthm := vote_at_most_once 7 demo4 demo4_reachable 1 1 rfl 6 2
  exact ⟨rfl, hthm.1, hthm.2 (by decide) rfl⟩

/-- C1: the winner-search loop reads the record at the address stored in
currentWinner and assigns currentWinner to itself, so it returns its start
address unchanged for every lookup function, fuel and start value; on the
concrete contest 1, where address 2 holds one vote and the deadline 10 has
passed at time 11, getWinner returns the zero address, which holds no
deposit and no votes, instead of the maximally voted participant 2. -/
theorem getWinner_ignores_votes :
    (∀ (lookup : Addr → Nat) (fuel maxVotes : Nat) (w : Addr),
      getWinnerLoop lookup fuel maxVotes w = w) ∧
    (demo4.contestParticipants 1 2).votesReceived = 1 ∧
    (demo4.contests 1).participantsCount = 2 ∧
    (demo4.contests 1).votingDeadline = 10 ∧
    getWinner demo4 11 1 = .ok 0 ∧
    (demo4.contestParticipants 1 0).depositAmount = 0 ∧
    (demo4.contestParticipants 1 0).votesReceived = 0 :=
  ⟨getWinnerLoop_const, rfl, rfl, rfl, rfl, rfl, rfl⟩

/-- C2: endContest can never succeed: it sets active to false and then calls
getWinner, whose require on the active flag (or, earlier, on the deadline)
must now fail, reverting the whole call; concretely, the owner ending the
still-active contest 1 after its deadline gets the error carrying the
contest-still-active require string rather than a winner announcement. -/
theorem endContest_always_reverts :
    (∀ (s : LedgerState) (caller : Addr) (now cid : Nat),
      ∃ e, endContest s caller now cid = .error e) ∧
    demo4.owner = 7 ∧
    (demo4.contests 1).active = true ∧
    (demo4.contests 1).votingDeadline = 10 ∧
    applyOp demo4 (.endContest 7 11 1) = .error .ContestStillActive :=
  ⟨endContest_never_ok, rfl, rfl, rfl, rfl⟩

/-- C7: getWinner's second require passes exactly when the active flag is
true, the opposite of the claimed precondition: with the deadline 10 passed
at time 11, getWinner succeeds on the still-active contest 1 and fails with
the contest-still-active error once the contest is inactive. -/
theorem getWinner_activeCheck_inverted :
    (demo4.contests 1).active = true ∧
    (demo4.contests 1).votingDeadline = 10 ∧
    getWinner demo4 11 1 = .ok 0 ∧
    getWinner demo4 10 1 = .error .VotingStillOpen ∧
    (demo4i.contests 1).active = false ∧
    getWinner demo4i 11 1 = .error .ContestStillActive :=
  ⟨rfl, rfl, rfl, rfl, rfl, rfl⟩
